import Mathlib

/-!
Verification of the snapshot-diff subsystem of `src/tools/br_team_memory.py`:
the Snapshot Store (`SaveTeamSnapshot`, `LoadTeamSnapshot`), the Snapshot
Differ (`CompareTeamSnapshots`) and the Change Reporter (`ReportTeamChanges`).

The Python code works on JSON-shaped data (lists of dicts with string keys,
scalar or nested-dict values).  We embed those values as the inductive `Val`
below and Python dicts as insertion-ordered association lists with unique
keys (`dictFind` / `dictInsert` mirror `d[k]` lookup and `d[k] = v` update,
which in Python preserve first-insertion order and overwrite in place).
Python exceptions (`KeyError` from `p["name"]` or `p["skills"]`, type errors
from iterating or `.get`-ting a non-mapping) are embedded as `Except PyErr`.
Floats and Python's numeric cross-type equalities (`True == 1`) are out of
scope: the player data handled by this tool is null/bool/int/string shaped.
-/

/-- JSON-like Python values: `None`, booleans, integers, strings, lists and
string-keyed dicts (in insertion order). -/
inductive Val where
  | null
  | bool (b : Bool)
  | int (n : Int)
  | str (s : String)
  | arr (elems : List Val)
  | obj (fields : List (String × Val))
deriving Repr

mutual

/-- Decidable equality on `Val`, by structural recursion (so that it reduces
inside the kernel on concrete inputs). -/
def Val.decEq : (a b : Val) → Decidable (a = b)
  | .null, .null => .isTrue rfl
  | .null, .bool _ => .isFalse nofun
  | .null, .int _ => .isFalse nofun
  | .null, .str _ => .isFalse nofun
  | .null, .arr _ => .isFalse nofun
  | .null, .obj _ => .isFalse nofun
  | .bool _, .null => .isFalse nofun
  | .bool a, .bool b =>
    if h : a = b then .isTrue (by rw [h]) else .isFalse (fun hc => by cases hc; exact h rfl)
  | .bool _, .int _ => .isFalse nofun
  | .bool _, .str _ => .isFalse nofun
  | .bool _, .arr _ => .isFalse nofun
  | .bool _, .obj _ => .isFalse nofun
  | .int _, .null => .isFalse nofun
  | .int _, .bool _ => .isFalse nofun
  | .int a, .int b =>
    if h : a = b then .isTrue (by rw [h]) else .isFalse (fun hc => by cases hc; exact h rfl)
  | .int _, .str _ => .isFalse nofun
  | .int _, .arr _ => .isFalse nofun
  | .int _, .obj _ => .isFalse nofun
  | .str _, .null => .isFalse nofun
  | .str _, .bool _ => .isFalse nofun
  | .str _, .int _ => .isFalse nofun
  | .str a, .str b =>
    if h : a = b then .isTrue (by rw [h]) else .isFalse (fun hc => by cases hc; exact h rfl)
  | .str _, .arr _ => .isFalse nofun
  | .str _, .obj _ => .isFalse nofun
  | .arr _, .null => .isFalse nofun
  | .arr _, .bool _ => .isFalse nofun
  | .arr _, .int _ => .isFalse nofun
  | .arr _, .str _ => .isFalse nofun
  | .arr xs, .arr ys =>
    match Val.decEqList xs ys with
    | .isTrue h => .isTrue (by rw [h])
    | .isFalse h => .isFalse (fun hc => by cases hc; exact h rfl)
  | .arr _, .obj _ => .isFalse nofun
  | .obj _, .null => .isFalse nofun
  | .obj _, .bool _ => .isFalse nofun
  | .obj _, .int _ => .isFalse nofun
  | .obj _, .str _ => .isFalse nofun
  | .obj _, .arr _ => .isFalse nofun
  | .obj xs, .obj ys =>
    match Val.decEqFields xs ys with
    | .isTrue h => .isTrue (by rw [h])
    | .isFalse h => .isFalse (fun hc => by cases hc; exact h rfl)
termination_by structural a => a

/-- Decidable equality on lists of `Val`. -/
def Val.decEqList : (xs ys : List Val) → Decidable (xs = ys)
  | [], [] => .isTrue rfl
  | [], _ :: _ => .isFalse nofun
  | _ :: _, [] => .isFalse nofun
  | x :: xs, y :: ys =>
    match Val.decEq x y with
    | .isFalse h => .isFalse (fun hc => by cases hc; exact h rfl)
    | .isTrue h1 =>
      match Val.decEqList xs ys with
      | .isTrue h2 => .isTrue (by rw [h1, h2])
      | .isFalse h2 => .isFalse (fun hc => by cases hc; exact h2 rfl)
termination_by structural xs => xs

/-- Decidable equality on string-keyed field lists. -/
def Val.decEqFields : (xs ys : List (String × Val)) → Decidable (xs = ys)
  | [], [] => .isTrue rfl
  | [], _ :: _ => .isFalse nofun
  | _ :: _, [] => .isFalse nofun
  | (k1, v1) :: xs, (k2, v2) :: ys =>
    if hk : k1 = k2 then
      match Val.decEq v1 v2 with
      | .isFalse h => .isFalse (fun hc => by cases hc; exact h rfl)
      | .isTrue h1 =>
        match Val.decEqFields xs ys with
        | .isTrue h2 => .isTrue (by rw [hk, h1, h2])
        | .isFalse h2 => .isFalse (fun hc => by cases hc; exact h2 rfl)
    else .isFalse (fun hc => by cases hc; exact hk rfl)
termination_by structural xs => xs

end

instance : DecidableEq Val := Val.decEq

/-- A Python dict with string keys holding JSON-like values — one record
(e.g. one player) of a snapshot. -/
abbrev Record := List (String × Val)

/-- Lookup in an insertion-ordered dict (`d[k]` / `d.get(k)` on the dicts
built by this program, whose keys are unique). -/
def dictFind {α β : Type} [DecidableEq α] (d : List (α × β)) (k : α) : Option β :=
  match d with
  | [] => none
  | e :: rest => if e.1 = k then some e.2 else dictFind rest k

/-- Membership test, Python's `k in d`. -/
def dictContains {α β : Type} [DecidableEq α] (d : List (α × β)) (k : α) : Bool :=
  (dictFind d k).isSome

/-- Update `d[k] = v` on an insertion-ordered dict: an existing key keeps its
position and gets the new value (last write wins), a new key is appended. -/
def dictInsert {α β : Type} [DecidableEq α] (d : List (α × β)) (k : α) (v : β) :
    List (α × β) :=
  match d with
  | [] => [(k, v)]
  | e :: rest => if e.1 = k then (k, v) :: rest else e :: dictInsert rest k v

/-- Python's `record.get(key)`: the stored value, or `None` when the key is
absent (an explicit `None` value and a missing key are indistinguishable). -/
def pyGet (p : Record) (k : String) : Val :=
  (dictFind p k).getD Val.null

/-- Exceptions the embedded code can raise: `KeyError` from a `d[k]` lookup,
a type error from iterating or `.get`-ting a non-mapping, and a JSON decode
error from `json.load` on a malformed file. -/
inductive PyErr where
  | keyError (key : String)
  | typeError
  | jsonError
deriving DecidableEq, Repr

/-- The result dict of `CompareTeamSnapshots.forward`:
`new_players` and `removed_players` list identity values, and
`attribute_changes` maps identity → changed-field → (old value, new value),
all in insertion order. -/
structure ChangeSet where
  new_players : List Val
  removed_players : List Val
  attribute_changes : List (Val × List (String × Val × Val))
deriving DecidableEq, Repr

/-- Loop of the dict comprehension `{p["name"]: p for p in snapshot}` of
`CompareTeamSnapshots.forward` (lines 84–85), with the dict built so far as
accumulator; `p["name"]` raises `KeyError` on a record lacking the identity
field. -/
def playersByNameAux (d : List (Val × Record)) :
    List Record → Except PyErr (List (Val × Record))
  | [] => Except.ok d
  | p :: rest =>
    match dictFind p "name" with
    | some nm => playersByNameAux (dictInsert d nm p) rest
    | none => Except.error (PyErr.keyError "name")

/-- The dict comprehension `{p["name"]: p for p in snapshot}` (lines 84–85):
builds the identity-indexed view of a snapshot. -/
def playersByName (snapshot : List Record) : Except PyErr (List (Val × Record)) :=
  playersByNameAux [] snapshot

/-- The fixed list of compared top-level attributes (lines 102–103 of
`CompareTeamSnapshots.forward`). -/
def comparedAttrs : List String :=
  ["age", "salary", "form", "aggression", "discipline",
   "leadership", "experience", "weight", "height", "csr", "energy"]

/-- Shared shape of the two comparison loops of `CompareTeamSnapshots.forward`
(lines 102–105 and 108–111): walk a list of field names and write
`diff[name] = (old value, new value)` into the accumulated dict whenever the
old and new values differ. -/
def diffLoop (oldVal newVal : String → Val) (d : List (String × Val × Val)) :
    List String → List (String × Val × Val)
  | [] => d
  | k :: rest =>
    diffLoop oldVal newVal
      (if oldVal k ≠ newVal k then dictInsert d k (oldVal k, newVal k) else d) rest

/-- The top-level attribute loop of `CompareTeamSnapshots.forward`
(lines 102–105): `if old_p.get(attr) != new_p.get(attr): diff[attr] = ...`. -/
def topLevelDiff (old_p new_p : Record) : List (String × Val × Val) :=
  diffLoop (pyGet old_p) (pyGet new_p) [] comparedAttrs

/-- The skills loop of `CompareTeamSnapshots.forward` (lines 108–111):
`for skill in old_p.get("skills", {})` iterates the old record's sub-mapping
keys only; the body reads `new_p["skills"]`, which raises `KeyError` when the
new record has no `skills` key — but only if the loop runs at least once.
A `skills` value that is not a mapping raises on iteration or on `.get` for
the value shapes occurring in this data (null, numbers); we embed that as
`typeError`. -/
def skillsDiff (old_p new_p : Record) (d : List (String × Val × Val)) :
    Except PyErr (List (String × Val × Val)) :=
  match dictFind old_p "skills" with
  | none => Except.ok d
  | some (Val.obj oldSkills) =>
    if oldSkills.isEmpty then Except.ok d
    else
      match dictFind new_p "skills" with
      | none => Except.error (PyErr.keyError "skills")
      | some (Val.obj newSkills) =>
        Except.ok (diffLoop (pyGet oldSkills) (pyGet newSkills) d (oldSkills.map Prod.fst))
      | some _ => Except.error PyErr.typeError
  | some _ => Except.error PyErr.typeError

/-- The per-matched-record diff dict of `CompareTeamSnapshots.forward`
(lines 99–111): top-level attributes first, then the skills keys, written
into one flat dict. -/
def recordDiff (old_p new_p : Record) : Except PyErr (List (String × Val × Val)) :=
  skillsDiff old_p new_p (topLevelDiff old_p new_p)

/-- The attribute-changes loop of `CompareTeamSnapshots.forward`
(lines 96–114): for every identity of the new view that is also in the old
view, compute the per-record diff dict and record it under that identity
when it is non-empty. -/
def attrChangesAux (old_by : List (Val × Record))
    (acc : List (Val × List (String × Val × Val))) :
    List (Val × Record) → Except PyErr (List (Val × List (String × Val × Val)))
  | [] => Except.ok acc
  | e :: rest =>
    match dictFind old_by e.1 with
    | none => attrChangesAux old_by acc rest
    | some old_p =>
      match recordDiff old_p e.2 with
      | Except.error er => Except.error er
      | Except.ok d =>
        attrChangesAux old_by (if d.isEmpty then acc else dictInsert acc e.1 d) rest

/-- The diff computation of `CompareTeamSnapshots.forward` once the old
snapshot has been loaded (lines 78–116): build both identity-indexed views,
collect added and removed identities in view-iteration order, then the
per-identity attribute changes for identities present in both views. -/
def diffSnapshots (old_snapshot new_snapshot : List Record) : Except PyErr ChangeSet :=
  match playersByName old_snapshot with
  | Except.error e => Except.error e
  | Except.ok old_by =>
    match playersByName new_snapshot with
    | Except.error e => Except.error e
    | Except.ok new_by =>
      match attrChangesAux old_by [] new_by with
      | Except.error e => Except.error e
      | Except.ok ac =>
        Except.ok
          { new_players :=
              (new_by.map Prod.fst).filter (fun nm => !(dictContains old_by nm)),
            removed_players :=
              (old_by.map Prod.fst).filter (fun nm => !(dictContains new_by nm)),
            attribute_changes := ac }

/-- Content of one snapshot file.  `json.dump` / `json.load` are external
stdlib collaborators; on the JSON-representable values `Val` ranges over they
are exact mutual inverses, so a completely written file is embedded by the
snapshot value it serializes (`jsonFile`), while bytes left by an interrupted
write are a separate, non-loadable state (`corruptFile`). -/
inductive FileData where
  | jsonFile (snapshot : List Record)
  | corruptFile (written : String)
deriving DecidableEq, Repr

/-- The on-disk snapshot directory: filename → file content. -/
abbrev FileSystem := List (String × FileData)

/-- The snapshot path `os.path.join(SNAPSHOT_DIR, f"team_{team_id}.json")`. -/
def snapshotFilename (team_id : Int) : String :=
  "./memory/team_snapshots/team_" ++ toString team_id ++ ".json"

/-- How one save attempt interacts with the disk. `open(filename, "w")`
truncates the file at once, so a failure during `json.dump` leaves whatever
prefix was flushed (`failDuringWrite`), while a failure of `open` itself
leaves the disk untouched (`failOnOpen`). -/
inductive WriteOutcome where
  | completed
  | failOnOpen
  | failDuringWrite (written : String)
deriving DecidableEq, Repr

/-- `SaveTeamSnapshot.forward` (lines 30–38): writes the serialized snapshot
to the file named by the team id and returns `True`; any exception is caught
by the `try`/`except` block and surfaces only as `False` (never re-raised,
which is why the embedded result is a plain pair, not an `Except`). -/
def SaveTeamSnapshot.forward (fs : FileSystem) (team_id : Int)
    (players_data : List Record) (ev : WriteOutcome) : FileSystem × Bool :=
  let filename := snapshotFilename team_id
  match ev with
  | .completed => (dictInsert fs filename (FileData.jsonFile players_data), true)
  | .failOnOpen => (fs, false)
  | .failDuringWrite w => (dictInsert fs filename (FileData.corruptFile w), false)

/-- `LoadTeamSnapshot.forward` (lines 52–57): returns `None` when the file
does not exist, otherwise `json.load`s it; a malformed (partially written)
file makes `json.load` raise, which this function does not catch. -/
def LoadTeamSnapshot.forward (fs : FileSystem) (team_id : Int) :
    Except PyErr (Option (List Record)) :=
  match dictFind fs (snapshotFilename team_id) with
  | none => Except.ok none
  | some (FileData.jsonFile snap) => Except.ok (some snap)
  | some (FileData.corruptFile _) => Except.error PyErr.jsonError

/-- `CompareTeamSnapshots.forward` (lines 72–116): loads the prior snapshot,
returns `None` when there is none, and otherwise computes the change dict
against the given new snapshot. -/
def CompareTeamSnapshots.forward (fs : FileSystem) (team_id : Int)
    (new_snapshot : List Record) : Except PyErr (Option ChangeSet) :=
  match LoadTeamSnapshot.forward fs team_id with
  | Except.error e => Except.error e
  | Except.ok none => Except.ok none
  | Except.ok (some old_snapshot) =>
    match diffSnapshots old_snapshot new_snapshot with
    | Except.error e => Except.error e
    | Except.ok cs => Except.ok (some cs)

mutual

/-- Python `repr` for the `Val` shapes this program prints (exact for strings
without quotes, backslashes or control characters). -/
def pyRepr : Val → String
  | .null => "None"
  | .bool b => if b then "True" else "False"
  | .int n => toString n
  | .str s => "'" ++ s ++ "'"
  | .arr xs => "[" ++ pyReprList xs ++ "]"
  | .obj fs => "\x7b" ++ pyReprFields fs ++ "\x7d"
termination_by structural v => v

/-- Comma-separated `repr`s of list elements. -/
def pyReprList : List Val → String
  | [] => ""
  | [x] => pyRepr x
  | x :: xs => pyRepr x ++ ", " ++ pyReprList xs
termination_by structural xs => xs

/-- Comma-separated `'key': repr(value)` entries of a dict. -/
def pyReprFields : List (String × Val) → String
  | [] => ""
  | [e] => "'" ++ e.1 ++ "': " ++ pyRepr e.2
  | e :: fs => "'" ++ e.1 ++ "': " ++ pyRepr e.2 ++ ", " ++ pyReprFields fs
termination_by structural xs => xs

end

/-- Python `str` as used by an f-string `f"{v}"`: strings appear unquoted,
`None`/`True`/`False` by their names, containers by their `repr`. -/
def pyStr : Val → String
  | .null => "None"
  | .bool b => if b then "True" else "False"
  | .int n => toString n
  | .str s => s
  | .arr xs => pyRepr (.arr xs)
  | .obj fs => pyRepr (.obj fs)

/-- `ReportTeamChanges.forward` (lines 130–159): the fixed sentence for the
absent marker, otherwise the added section, the removed section and the
attribute-changes section joined by newlines.  The separator between old and
new value is the literal three-character sequence `â†’` found
in the source (mojibake of a rightwards arrow). -/
def ReportTeamChanges.forward (changes : Option ChangeSet) : String :=
  match changes with
  | none => "No previous snapshot exists. Unable to report changes."
  | some c =>
    let lines : List String :=
      [if c.new_players.isEmpty then "No new players added." else "New players added:"]
      ++ c.new_players.map (fun nm => " - " ++ pyStr nm)
      ++ [if c.removed_players.isEmpty then "No players removed." else "Players removed:"]
      ++ c.removed_players.map (fun nm => " - " ++ pyStr nm)
      ++ (if c.attribute_changes.isEmpty then ["No changes in player attributes detected."]
          else "Changes in player attributes:" ::
            c.attribute_changes.flatMap (fun e =>
              (" - " ++ pyStr e.1 ++ ":") ::
                e.2.map (fun a =>
                  "     " ++ a.1 ++ ": " ++ pyStr a.2.1 ++ " â†’ " ++ pyStr a.2.2)))
    String.intercalate "\n" lines

/-!
Spec-side definitions.  The definitions below restate, in the spec's own
vocabulary, the shapes the claims talk about (first-encounter identity order,
identity presence, last-write-wins lookup, the compared skill keys and their
values, the report layout).  The theorems compare them with the embedded
source functions above.
-/

/-- Identity values of a snapshot in the order first encountered while
iterating it, each listed once, continuing from the already-seen list. -/
def identityOrderFrom (seen : List Val) : List Record → List Val
  | [] => seen
  | p :: rest =>
    match dictFind p "name" with
    | some nm => identityOrderFrom (if nm ∈ seen then seen else seen ++ [nm]) rest
    | none => identityOrderFrom seen rest

/-- Identity values of a snapshot in first-encounter order, each once. -/
def identityOrder (s : List Record) : List Val :=
  identityOrderFrom [] s

/-- Whether some record of the snapshot carries the given identity value. -/
def hasIdentity (s : List Record) (nm : Val) : Bool :=
  s.any (fun p => decide (dictFind p "name" = some nm))

/-- The record with the given identity occurring latest in iteration order,
if any (the spec's last-write-wins record). -/
def lastRecordNamed (s : List Record) (nm : Val) : Option Record :=
  s.reverse.find? (fun p => decide (dictFind p "name" = some nm))

/-- The identity-indexed view of a snapshot when it can be built, `[]` when
building it raises. -/
def viewOf (s : List Record) : List (Val × Record) :=
  match playersByName s with
  | Except.ok v => v
  | Except.error _ => []

/-- Keys of a record's `skills` sub-mapping (empty when the record has no
`skills` mapping). -/
def skillKeys (p : Record) : List String :=
  match dictFind p "skills" with
  | some (Val.obj sk) => sk.map Prod.fst
  | _ => []

/-- Value of one key of a record's `skills` sub-mapping, `None` when absent. -/
def skillVal (p : Record) (k : String) : Val :=
  match dictFind p "skills" with
  | some (Val.obj sk) => pyGet sk k
  | _ => Val.null

/-- Some compared field of a matched record pair differs: a top-level
attribute of the fixed list, or a key of the old record's skills
sub-mapping. -/
def someAttrDiffers (old_p new_p : Record) : Prop :=
  (∃ a ∈ comparedAttrs, pyGet old_p a ≠ pyGet new_p a) ∨
  (∃ k ∈ skillKeys old_p, skillVal old_p k ≠ skillVal new_p k)

/-- A record's `skills` field, when present, is a mapping. -/
def skillsWellFormed (p : Record) : Bool :=
  match dictFind p "skills" with
  | none => true
  | some (Val.obj _) => true
  | some _ => false

/-- Report section for added identities, as the spec words it: an explicit
"none added" sentence, or a header followed by one line per identity. -/
def addedSection (added : List Val) : List String :=
  if added.isEmpty then ["No new players added."]
  else "New players added:" :: added.map (fun nm => " - " ++ pyStr nm)

/-- Report section for removed identities. -/
def removedSection (removed : List Val) : List String :=
  if removed.isEmpty then ["No players removed."]
  else "Players removed:" :: removed.map (fun nm => " - " ++ pyStr nm)

/-- Report section for attribute changes: an explicit "no attribute changes"
sentence, or a header followed, per identity, by its own header line and one
`name: old â†’ new` line per changed field. -/
def attrSection (ac : List (Val × List (String × Val × Val))) : List String :=
  if ac.isEmpty then ["No changes in player attributes detected."]
  else "Changes in player attributes:" ::
    ac.flatMap (fun e =>
      (" - " ++ pyStr e.1 ++ ":") ::
        e.2.map (fun a =>
          "     " ++ a.1 ++ ": " ++ pyStr a.2.1 ++ " â†’ " ++ pyStr a.2.2))

/-- The report as the spec describes it: the fixed no-baseline sentence for
the absent marker, otherwise the three sections in order, joined by
newlines. -/
def reportSpec : Option ChangeSet → String
  | none => "No previous snapshot exists. Unable to report changes."
  | some c =>
    String.intercalate "\n"
      (addedSection c.new_players ++ removedSection c.removed_players ++
        attrSection c.attribute_changes)

/-- The contribution of one new-view entry to `attribute_changes`. -/
def attrEntry (old_by : List (Val × Record)) (e : Val × Record) :
    Option (Val × List (String × Val × Val)) :=
  match dictFind old_by e.1 with
  | none => none
  | some old_p =>
    match recordDiff old_p e.2 with
    | Except.ok dl => if dl.isEmpty then none else some (e.1, dl)
    | Except.error _ => none

/-- Sample records for concrete witnesses. -/
def pA20 : Record := [("name", Val.str "A"), ("age", Val.int 20)]

/-- Sample record: player A one season older. -/
def pA21 : Record := [("name", Val.str "A"), ("age", Val.int 21)]

/-- Sample record: player B. -/
def pB19 : Record := [("name", Val.str "B"), ("age", Val.int 19)]

/-- Sample record with a nested skills sub-mapping. -/
def pASkills : Record :=
  [("name", Val.str "A"), ("skills", Val.obj [("tackle", Val.int 1)])]

/-- Sample record with the identity field only. -/
def pAOnly : Record := [("name", Val.str "A")]

/-- A store holding a prior snapshot `[pA20]` for team 1. -/
def sampleStore : FileSystem := [(snapshotFilename 1, FileData.jsonFile [pA20])]

/-- A store holding a prior snapshot with a duplicated identity for team 2. -/
def dupStore : FileSystem := [(snapshotFilename 2, FileData.jsonFile [pA20, pA21])]

/-!
Helper lemmas about the dict primitives.
-/

theorem dictFind_dictInsert {α β : Type} [DecidableEq α]
    (d : List (α × β)) (k k' : α) (v : β) :
    dictFind (dictInsert d k v) k' = if k' = k then some v else dictFind d k' := by
  induction d with
  | nil =>
    by_cases hk : k' = k
    · simp [dictInsert, dictFind, hk]
    · have hk2 : ¬ k = k' := fun h => hk h.symm
      simp [dictInsert, dictFind, hk, hk2]
  | cons e rest ih =>
    by_cases he : e.1 = k
    · by_cases hk : k' = k
      · simp [dictInsert, dictFind, he, hk]
      · have h2 : ¬ e.1 = k' := by rw [he]; exact fun h => hk h.symm
        have hk2 : ¬ k = k' := fun h => hk h.symm
        simp [dictInsert, dictFind, he, hk, hk2, h2]
    · simp only [dictInsert, if_neg he]
      by_cases he' : e.1 = k'
      · have hk : ¬ k' = k := fun h => he (by rw [he', h])
        simp [dictFind, he', hk]
      · simp [dictFind, he', ih]

theorem dictContains_eq_mem_keys {α β : Type} [DecidableEq α]
    (d : List (α × β)) (k : α) :
    dictContains d k = true ↔ k ∈ d.map Prod.fst := by
  induction d with
  | nil => simp [dictContains, dictFind]
  | cons e rest ih =>
    by_cases he : e.1 = k
    · simp [dictContains, dictFind, he]
    · have he2 : ¬ k = e.1 := fun h => he h.symm
      simp only [dictContains, dictFind, if_neg he, List.map_cons, List.mem_cons]
      rw [← dictContains]
      simp [he2, ih]

theorem dictContains_dictInsert {α β : Type} [DecidableEq α]
    (d : List (α × β)) (k k' : α) (v : β) :
    dictContains (dictInsert d k v) k' = (decide (k' = k) || dictContains d k') := by
  by_cases hk : k' = k <;> simp [dictContains, dictFind_dictInsert, hk]

theorem keys_dictInsert {α β : Type} [DecidableEq α]
    (d : List (α × β)) (k : α) (v : β) :
    (dictInsert d k v).map Prod.fst =
      if k ∈ d.map Prod.fst then d.map Prod.fst else d.map Prod.fst ++ [k] := by
  induction d with
  | nil => simp [dictInsert]
  | cons e rest ih =>
    by_cases he : e.1 = k
    · simp [dictInsert, he]
    · have hne : ¬ k = e.1 := fun h => he h.symm
      by_cases hm : k ∈ rest.map Prod.fst <;>
        simp [dictInsert, he, hne, hm, ih]

theorem mem_dictInsert_self {α β : Type} [DecidableEq α]
    (d : List (α × β)) (k : α) (v : β) : (k, v) ∈ dictInsert d k v := by
  induction d with
  | nil => simp [dictInsert]
  | cons e rest ih =>
    by_cases he : e.1 = k
    · simp only [dictInsert, if_pos he]
      exact List.mem_cons_self _ _
    · simp only [dictInsert, if_neg he]
      exact List.mem_cons_of_mem e ih

theorem mem_dictInsert_of_ne {α β : Type} [DecidableEq α]
    {d : List (α × β)} {e : α × β} (k : α) (v : β)
    (hmem : e ∈ d) (hne : e.1 ≠ k) : e ∈ dictInsert d k v := by
  induction d with
  | nil => simp at hmem
  | cons e2 rest ih =>
    rw [List.mem_cons] at hmem
    rcases hmem with h | h
    · by_cases he : e2.1 = k
      · exact absurd (by rw [h]; exact he) hne
      · simp only [dictInsert, if_neg he]
        exact (by rw [h]; exact List.mem_cons_self _ _ : e ∈ e2 :: dictInsert rest k v)
    · by_cases he : e2.1 = k
      · simp only [dictInsert, if_pos he]
        exact List.mem_cons_of_mem _ h
      · simp only [dictInsert, if_neg he]
        exact List.mem_cons_of_mem _ (ih h)

theorem mem_of_mem_dictInsert {α β : Type} [DecidableEq α]
    {d : List (α × β)} {e : α × β} {k : α} {v : β}
    (hmem : e ∈ dictInsert d k v) : e ∈ d ∨ e = (k, v) := by
  induction d with
  | nil =>
    simp [dictInsert] at hmem
    exact Or.inr hmem
  | cons e2 rest ih =>
    by_cases he : e2.1 = k
    · simp only [dictInsert, if_pos he, List.mem_cons] at hmem
      rcases hmem with h | h
      · exact Or.inr h
      · exact Or.inl (List.mem_cons_of_mem _ h)
    · simp only [dictInsert, if_neg he, List.mem_cons] at hmem
      rcases hmem with h | h
      · exact Or.inl (by rw [h]; exact List.mem_cons_self _ _)
      · rcases ih h with h2 | h2
        · exact Or.inl (List.mem_cons_of_mem _ h2)
        · exact Or.inr h2

theorem dictInsert_ne_nil {α β : Type} [DecidableEq α]
    (d : List (α × β)) (k : α) (v : β) : dictInsert d k v ≠ [] := by
  cases d with
  | nil => simp [dictInsert]
  | cons e rest => by_cases he : e.1 = k <;> simp [dictInsert, he]

theorem dictInsert_eq_append {α β : Type} [DecidableEq α]
    {d : List (α × β)} {k : α} (v : β) (h : k ∉ d.map Prod.fst) :
    dictInsert d k v = d ++ [(k, v)] := by
  induction d with
  | nil => simp [dictInsert]
  | cons e rest ih =>
    simp only [List.map_cons, List.mem_cons] at h
    push_neg at h
    have he : ¬ e.1 = k := fun hh => h.1 hh.symm
    simp [dictInsert, he, ih h.2]

theorem keys_nodup_dictInsert {α β : Type} [DecidableEq α]
    {d : List (α × β)} (k : α) (v : β) (h : (d.map Prod.fst).Nodup) :
    ((dictInsert d k v).map Prod.fst).Nodup := by
  rw [keys_dictInsert]
  by_cases hm : k ∈ d.map Prod.fst
  · simpa [hm] using h
  · simpa [hm, List.nodup_append] using h

theorem dictFind_mem {α β : Type} [DecidableEq α]
    {d : List (α × β)} {k : α} {v : β} (h : dictFind d k = some v) : (k, v) ∈ d := by
  induction d with
  | nil => simp [dictFind] at h
  | cons e rest ih =>
    by_cases he : e.1 = k
    · simp only [dictFind, if_pos he, Option.some.injEq] at h
      have hkv : (k, v) = e := by rw [← he, ← h]
      rw [hkv]
      exact List.mem_cons_self _ _
    · simp only [dictFind, if_neg he] at h
      exact List.mem_cons_of_mem _ (ih h)

theorem dictFind_eq_some_of_mem {α β : Type} [DecidableEq α]
    {d : List (α × β)} {k : α} {v : β}
    (hnd : (d.map Prod.fst).Nodup) (hmem : (k, v) ∈ d) : dictFind d k = some v := by
  induction d with
  | nil => simp at hmem
  | cons e rest ih =>
    rw [List.map_cons, List.nodup_cons] at hnd
    rw [List.mem_cons] at hmem
    rcases hmem with h | h
    · rw [← h]
      simp [dictFind]
    · have he : ¬ e.1 = k := by
        intro hh
        exact hnd.1 (by rw [hh]; exact List.mem_map_of_mem Prod.fst h)
      simp [dictFind, he, ih hnd.2 h]

/-!
Lemmas about the identity-indexed view builder.
-/

theorem playersByNameAux_ok_keys :
    ∀ (s : List Record) (d v : List (Val × Record)),
    playersByNameAux d s = Except.ok v →
    v.map Prod.fst = identityOrderFrom (d.map Prod.fst) s := by
  intro s
  induction s with
  | nil =>
    intro d v h
    simp only [playersByNameAux, Except.ok.injEq] at h
    simp [← h, identityOrderFrom]
  | cons p rest ih =>
    intro d v h
    cases hn : dictFind p "name" with
    | none => simp [playersByNameAux, hn] at h
    | some nm =>
      simp only [playersByNameAux, hn] at h
      rw [ih _ _ h, keys_dictInsert]
      simp only [identityOrderFrom, hn]

theorem playersByNameAux_ok_contains :
    ∀ (s : List Record) (d v : List (Val × Record)),
    playersByNameAux d s = Except.ok v → ∀ nm,
    dictContains v nm = (dictContains d nm || hasIdentity s nm) := by
  intro s
  induction s with
  | nil =>
    intro d v h nm
    simp only [playersByNameAux, Except.ok.injEq] at h
    simp [← h, hasIdentity]
  | cons p rest ih =>
    intro d v h nm
    cases hn : dictFind p "name" with
    | none => simp [playersByNameAux, hn] at h
    | some np =>
      simp only [playersByNameAux, hn] at h
      rw [ih _ _ h nm, dictContains_dictInsert]
      simp only [hasIdentity, List.any_cons, hn]
      have hsym : (decide (some np = some nm)) = (decide (nm = np)) := by
        simp [eq_comm]
      rw [hsym]
      cases decide (nm = np) <;> cases dictContains d nm <;> simp

theorem playersByNameAux_ok_find :
    ∀ (s : List Record) (d v : List (Val × Record)),
    playersByNameAux d s = Except.ok v → ∀ nm,
    dictFind v nm =
      (s.reverse.find? (fun p => decide (dictFind p "name" = some nm))).or
        (dictFind d nm) := by
  intro s
  induction s with
  | nil =>
    intro d v h nm
    simp only [playersByNameAux, Except.ok.injEq] at h
    simp [← h]
  | cons p rest ih =>
    intro d v h nm
    cases hn : dictFind p "name" with
    | none => simp [playersByNameAux, hn] at h
    | some np =>
      simp only [playersByNameAux, hn] at h
      rw [ih _ _ h nm]
      have hbase : dictFind (dictInsert d np p) nm =
          (List.find? (fun p => decide (dictFind p "name" = some nm)) [p]).or
            (dictFind d nm) := by
        rw [dictFind_dictInsert]
        by_cases hnp : nm = np
        · simp [List.find?, hn, hnp]
        · have hpn : ¬ (np = nm) := fun hh => hnp hh.symm
          simp [List.find?, hn, hnp, hpn]
      rw [hbase, ← Option.or_assoc, ← List.find?_append, ← List.reverse_cons]

theorem playersByNameAux_total :
    ∀ (s : List Record) (d : List (Val × Record)),
    (∀ p ∈ s, (dictFind p "name").isSome) →
    ∃ v, playersByNameAux d s = Except.ok v := by
  intro s
  induction s with
  | nil => intro d _; exact ⟨d, rfl⟩
  | cons p rest ih =>
    intro d hall
    have hp := hall p (List.mem_cons_self _ _)
    cases hn : dictFind p "name" with
    | none => rw [hn] at hp; simp at hp
    | some nm =>
      simp only [playersByNameAux, hn]
      exact ih _ (fun q hq => hall q (List.mem_cons_of_mem _ hq))

theorem playersByNameAux_error_of_nameless :
    ∀ (s : List Record) (d : List (Val × Record)),
    (∃ p ∈ s, dictFind p "name" = none) →
    playersByNameAux d s = Except.error (PyErr.keyError "name") := by
  intro s
  induction s with
  | nil => intro d h; simp at h
  | cons p rest ih =>
    intro d h
    cases hn : dictFind p "name" with
    | none => simp [playersByNameAux, hn]
    | some nm =>
      simp only [playersByNameAux, hn]
      apply ih
      rcases h with ⟨q, hq, hqn⟩
      rw [List.mem_cons] at hq
      rcases hq with hq | hq
      · rw [hq] at hqn; rw [hqn] at hn; simp at hn
      · exact ⟨q, hq, hqn⟩

theorem playersByNameAux_keys_nodup :
    ∀ (s : List Record) (d v : List (Val × Record)),
    (d.map Prod.fst).Nodup → playersByNameAux d s = Except.ok v →
    (v.map Prod.fst).Nodup := by
  intro s
  induction s with
  | nil =>
    intro d v hnd h
    simp only [playersByNameAux, Except.ok.injEq] at h
    exact h ▸ hnd
  | cons p rest ih =>
    intro d v hnd h
    cases hn : dictFind p "name" with
    | none => simp [playersByNameAux, hn] at h
    | some nm =>
      simp only [playersByNameAux, hn] at h
      exact ih _ _ (keys_nodup_dictInsert nm p hnd) h

theorem playersByName_keys (s : List Record) (v : List (Val × Record))
    (h : playersByName s = Except.ok v) : v.map Prod.fst = identityOrder s := by
  have := playersByNameAux_ok_keys s [] v h
  simpa [identityOrder] using this

theorem playersByName_contains (s : List Record) (v : List (Val × Record))
    (h : playersByName s = Except.ok v) (nm : Val) :
    dictContains v nm = hasIdentity s nm := by
  have := playersByNameAux_ok_contains s [] v h nm
  simpa [dictContains, dictFind] using this

theorem playersByName_find (s : List Record) (v : List (Val × Record))
    (h : playersByName s = Except.ok v) (nm : Val) :
    dictFind v nm = lastRecordNamed s nm := by
  have := playersByNameAux_ok_find s [] v h nm
  simpa [lastRecordNamed, dictFind, Option.or_none] using this

theorem playersByName_keys_nodup (s : List Record) (v : List (Val × Record))
    (h : playersByName s = Except.ok v) : (v.map Prod.fst).Nodup := by
  exact playersByNameAux_keys_nodup s [] v (by simp) h

theorem playersByName_entry_named (s : List Record) (v : List (Val × Record))
    (h : playersByName s = Except.ok v) {nm : Val} {r : Record}
    (hmem : (nm, r) ∈ v) : r ∈ s ∧ dictFind r "name" = some nm := by
  have hf : dictFind v nm = some r :=
    dictFind_eq_some_of_mem (playersByName_keys_nodup s v h) hmem
  rw [playersByName_find s v h nm] at hf
  refine ⟨?_, ?_⟩
  · have := List.mem_of_find?_eq_some hf
    exact List.mem_reverse.mp this
  · have := List.find?_some hf
    simpa using this

/-!
Lemmas about the comparison loops.
-/

theorem mem_diffLoop (oldVal newVal : String → Val) :
    ∀ (ks : List String) (d : List (String × Val × Val)) (e : String × Val × Val),
    e ∈ diffLoop oldVal newVal d ks →
    e ∈ d ∨ (e.1 ∈ ks ∧ e.2 = (oldVal e.1, newVal e.1) ∧ oldVal e.1 ≠ newVal e.1) := by
  intro ks
  induction ks with
  | nil => intro d e h; exact Or.inl h
  | cons k rest ih =>
    intro d e h
    simp only [diffLoop] at h
    rcases ih _ e h with h2 | h2
    · by_cases hne : oldVal k ≠ newVal k
      · rw [if_pos hne] at h2
        rcases mem_of_mem_dictInsert h2 with h3 | h3
        · exact Or.inl h3
        · refine Or.inr ⟨?_, ?_, ?_⟩
          · rw [h3]; exact List.mem_cons_self _ _
          · rw [h3]
          · rw [h3]; exact hne
      · rw [if_neg hne] at h2
        exact Or.inl h2
    · exact Or.inr ⟨List.mem_cons_of_mem _ h2.1, h2.2⟩

theorem diffLoop_eq_nil_iff (oldVal newVal : String → Val) :
    ∀ (ks : List String) (d : List (String × Val × Val)),
    diffLoop oldVal newVal d ks = [] ↔ d = [] ∧ ∀ k ∈ ks, oldVal k = newVal k := by
  intro ks
  induction ks with
  | nil => intro d; simp [diffLoop]
  | cons k rest ih =>
    intro d
    simp only [diffLoop]
    by_cases hne : oldVal k ≠ newVal k
    · rw [if_pos hne, ih]
      constructor
      · intro ⟨h1, _⟩
        exact absurd h1 (dictInsert_ne_nil _ _ _)
      · intro ⟨_, h2⟩
        exact absurd (h2 k (List.mem_cons_self _ _)) hne
    · rw [if_neg hne, ih]
      push_neg at hne
      constructor
      · intro ⟨h1, h2⟩
        refine ⟨h1, fun k2 hk2 => ?_⟩
        rw [List.mem_cons] at hk2
        rcases hk2 with hk2 | hk2
        · rw [hk2]; exact hne
        · exact h2 k2 hk2
      · intro ⟨h1, h2⟩
        exact ⟨h1, fun k2 hk2 => h2 k2 (List.mem_cons_of_mem _ hk2)⟩

theorem mem_diffLoop_of_stable (oldVal newVal : String → Val) :
    ∀ (ks : List String) (d : List (String × Val × Val)) (e : String × Val × Val),
    e ∈ d → e.2 = (oldVal e.1, newVal e.1) → e ∈ diffLoop oldVal newVal d ks := by
  intro ks
  induction ks with
  | nil => intro d e h _; exact h
  | cons k rest ih =>
    intro d e h hv
    simp only [diffLoop]
    by_cases hne : oldVal k ≠ newVal k
    · rw [if_pos hne]
      refine ih _ e ?_ hv
      by_cases hek : e.1 = k
      · have he2 : e = (k, (oldVal k, newVal k)) := by
          rw [← hek, ← hv]
        rw [he2]
        exact mem_dictInsert_self _ _ _
      · exact mem_dictInsert_of_ne _ _ h hek
    · rw [if_neg hne]
      exact ih _ e h hv

theorem mem_diffLoop_of_not_mem_keys (oldVal newVal : String → Val) :
    ∀ (ks : List String) (d : List (String × Val × Val)) (e : String × Val × Val),
    e ∈ d → e.1 ∉ ks → e ∈ diffLoop oldVal newVal d ks := by
  intro ks
  induction ks with
  | nil => intro d e h _; exact h
  | cons k rest ih =>
    intro d e h hk
    rw [List.mem_cons] at hk
    push_neg at hk
    simp only [diffLoop]
    by_cases hne : oldVal k ≠ newVal k
    · rw [if_pos hne]
      exact ih _ e (mem_dictInsert_of_ne _ _ h hk.1) hk.2
    · rw [if_neg hne]
      exact ih _ e h hk.2

theorem mem_diffLoop_of_differs (oldVal newVal : String → Val) :
    ∀ (ks : List String) (d : List (String × Val × Val)) (k : String),
    k ∈ ks → oldVal k ≠ newVal k →
    (k, oldVal k, newVal k) ∈ diffLoop oldVal newVal d ks := by
  intro ks
  induction ks with
  | nil => intro d k h _; simp at h
  | cons k2 rest ih =>
    intro d k hk hne
    rw [List.mem_cons] at hk
    simp only [diffLoop]
    rcases hk with hk | hk
    · subst hk
      rw [if_pos hne]
      exact mem_diffLoop_of_stable oldVal newVal rest _ _
        (mem_dictInsert_self _ _ _) rfl
    · by_cases hne2 : oldVal k2 ≠ newVal k2
      · rw [if_pos hne2]; exact ih _ k hk hne
      · rw [if_neg hne2]; exact ih _ k hk hne

/-!
Lemmas about the per-record diff.
-/

theorem recordDiff_ok_cases (old_p new_p : Record) (dl : List (String × Val × Val))
    (h : recordDiff old_p new_p = Except.ok dl) :
    (skillKeys old_p = [] ∧ dl = topLevelDiff old_p new_p) ∨
    (∃ oldSkills newSkills,
      dictFind old_p "skills" = some (Val.obj oldSkills) ∧
      dictFind new_p "skills" = some (Val.obj newSkills) ∧
      oldSkills ≠ [] ∧
      dl = diffLoop (pyGet oldSkills) (pyGet newSkills)
            (topLevelDiff old_p new_p) (oldSkills.map Prod.fst)) := by
  cases hsk : dictFind old_p "skills" with
  | none =>
    simp only [recordDiff, skillsDiff, hsk, Except.ok.injEq] at h
    exact Or.inl ⟨by simp [skillKeys, hsk], h.symm⟩
  | some v =>
    cases v with
    | obj oldSkills =>
      by_cases hemp : oldSkills.isEmpty
      · simp only [recordDiff, skillsDiff, hsk, hemp, if_true, Except.ok.injEq] at h
        rw [List.isEmpty_iff] at hemp
        refine Or.inl ⟨by simp [skillKeys, hsk, hemp], h.symm⟩
      · cases hnsk : dictFind new_p "skills" with
        | none => simp [recordDiff, skillsDiff, hsk, hemp, hnsk] at h
        | some w =>
          cases w with
          | obj newSkills =>
            simp only [recordDiff, skillsDiff, hsk, hemp, Bool.false_eq_true,
              if_false, hnsk, Except.ok.injEq] at h
            have hne : oldSkills ≠ [] := by
              intro hx
              rw [hx] at hemp
              simp at hemp
            exact Or.inr ⟨oldSkills, newSkills, rfl, rfl, hne, h.symm⟩
          | null => simp [recordDiff, skillsDiff, hsk, hemp, hnsk] at h
          | bool b => simp [recordDiff, skillsDiff, hsk, hemp, hnsk] at h
          | int n => simp [recordDiff, skillsDiff, hsk, hemp, hnsk] at h
          | str s => simp [recordDiff, skillsDiff, hsk, hemp, hnsk] at h
          | arr xs => simp [recordDiff, skillsDiff, hsk, hemp, hnsk] at h
    | null => simp [recordDiff, skillsDiff, hsk] at h
    | bool b => simp [recordDiff, skillsDiff, hsk] at h
    | int n => simp [recordDiff, skillsDiff, hsk] at h
    | str s => simp [recordDiff, skillsDiff, hsk] at h
    | arr xs => simp [recordDiff, skillsDiff, hsk] at h

theorem recordDiff_ok_mem (old_p new_p : Record) (dl : List (String × Val × Val))
    (h : recordDiff old_p new_p = Except.ok dl)
    (e : String × Val × Val) (he : e ∈ dl) :
    e.1 ∈ comparedAttrs ∨ e.1 ∈ skillKeys old_p := by
  rcases recordDiff_ok_cases old_p new_p dl h with ⟨_, hdl⟩ | ⟨os, ns, hsk, _, _, hdl⟩
  · rw [hdl, topLevelDiff] at he
    rcases mem_diffLoop _ _ _ _ _ he with h2 | h2
    · simp at h2
    · exact Or.inl h2.1
  · rw [hdl] at he
    rcases mem_diffLoop _ _ _ _ _ he with h2 | h2
    · rw [topLevelDiff] at h2
      rcases mem_diffLoop _ _ _ _ _ h2 with h3 | h3
      · simp at h3
      · exact Or.inl h3.1
    · refine Or.inr ?_
      rw [skillKeys, hsk]
      exact h2.1

theorem recordDiff_ok_top_mem_iff (old_p new_p : Record)
    (dl : List (String × Val × Val)) (h : recordDiff old_p new_p = Except.ok dl)
    (a : String) (ha : a ∈ comparedAttrs) (hna : a ∉ skillKeys old_p) :
    ((a, pyGet old_p a, pyGet new_p a) ∈ dl ↔ pyGet old_p a ≠ pyGet new_p a) := by
  rcases recordDiff_ok_cases old_p new_p dl h with ⟨_, hdl⟩ | ⟨os, ns, hsk, _, _, hdl⟩
  · rw [hdl, topLevelDiff]
    constructor
    · intro hmem
      rcases mem_diffLoop _ _ _ _ _ hmem with h2 | h2
      · simp at h2
      · exact h2.2.2
    · intro hne
      exact mem_diffLoop_of_differs _ _ _ _ a ha hne
  · rw [skillKeys, hsk] at hna
    rw [hdl]
    constructor
    · intro hmem
      rcases mem_diffLoop _ _ _ _ _ hmem with h2 | h2
      · rw [topLevelDiff] at h2
        rcases mem_diffLoop _ _ _ _ _ h2 with h3 | h3
        · simp at h3
        · exact h3.2.2
      · exact absurd h2.1 hna
    · intro hne
      refine mem_diffLoop_of_not_mem_keys _ _ _ _ _ ?_ hna
      rw [topLevelDiff]
      exact mem_diffLoop_of_differs _ _ _ _ a ha hne

theorem recordDiff_ok_ne_nil_iff (old_p new_p : Record)
    (dl : List (String × Val × Val)) (h : recordDiff old_p new_p = Except.ok dl) :
    dl ≠ [] ↔ someAttrDiffers old_p new_p := by
  rcases recordDiff_ok_cases old_p new_p dl h with ⟨hke, hdl⟩ | ⟨os, ns, hsk, hnsk, _, hdl⟩
  · rw [hdl, topLevelDiff, Ne, diffLoop_eq_nil_iff]
    rw [someAttrDiffers, hke]
    constructor
    · intro hx
      by_cases hall : ∀ a ∈ comparedAttrs, pyGet old_p a = pyGet new_p a
      · exact absurd ⟨rfl, hall⟩ hx
      · push_neg at hall
        rcases hall with ⟨a, ha, hane⟩
        exact Or.inl ⟨a, ha, hane⟩
    · intro hx hy
      rcases hx with ⟨a, ha, hane⟩ | ⟨k, hk, _⟩
      · exact absurd (hy.2 a ha) hane
      · simp at hk
  · rw [hdl, Ne, diffLoop_eq_nil_iff, topLevelDiff, diffLoop_eq_nil_iff]
    rw [someAttrDiffers, skillKeys, hsk]
    have hsv : ∀ k, skillVal old_p k = pyGet os k := fun k => by rw [skillVal, hsk]
    have hsv2 : ∀ k, skillVal new_p k = pyGet ns k := fun k => by rw [skillVal, hnsk]
    constructor
    · intro hx
      by_cases hall : ∀ a ∈ comparedAttrs, pyGet old_p a = pyGet new_p a
      · by_cases hall2 : ∀ k ∈ os.map Prod.fst, pyGet os k = pyGet ns k
        · exact absurd ⟨⟨rfl, hall⟩, hall2⟩ hx
        · push_neg at hall2
          rcases hall2 with ⟨k, hk, hkne⟩
          refine Or.inr ⟨k, hk, ?_⟩
          rw [hsv, hsv2]
          exact hkne
      · push_neg at hall
        rcases hall with ⟨a, ha, hane⟩
        exact Or.inl ⟨a, ha, hane⟩
    · intro hx hy
      rcases hx with ⟨a, ha, hane⟩ | ⟨k, hk, hkne⟩
      · exact absurd (hy.1.2 a ha) hane
      · rw [hsv, hsv2] at hkne
        exact absurd (hy.2 k hk) hkne

theorem recordDiff_total (old_p new_p : Record)
    (h1 : skillsWellFormed old_p = true)
    (h2 : skillsWellFormed new_p = true)
    (h3 : skillKeys old_p ≠ [] → (dictFind new_p "skills").isSome) :
    ∃ dl, recordDiff old_p new_p = Except.ok dl := by
  cases hsk : dictFind old_p "skills" with
  | none =>
    exact ⟨topLevelDiff old_p new_p, by simp only [recordDiff, skillsDiff, hsk]⟩
  | some v =>
    cases v with
    | obj oldSkills =>
      by_cases hemp : oldSkills.isEmpty
      · exact ⟨topLevelDiff old_p new_p,
          by simp only [recordDiff, skillsDiff, hsk, hemp, if_true]⟩
      · have hkeys : skillKeys old_p ≠ [] := by
          rw [skillKeys, hsk]
          intro hx
          rw [List.map_eq_nil_iff] at hx
          rw [hx] at hemp
          simp at hemp
        have hsome := h3 hkeys
        cases hnsk : dictFind new_p "skills" with
        | none => rw [hnsk] at hsome; simp at hsome
        | some w =>
          cases w with
          | obj newSkills =>
            exact ⟨diffLoop (pyGet oldSkills) (pyGet newSkills)
                (topLevelDiff old_p new_p) (oldSkills.map Prod.fst),
              by simp only [recordDiff, skillsDiff, hsk, hemp,
                Bool.false_eq_true, if_false, hnsk]⟩
          | null => simp [skillsWellFormed, hnsk] at h2
          | bool b => simp [skillsWellFormed, hnsk] at h2
          | int n => simp [skillsWellFormed, hnsk] at h2
          | str s => simp [skillsWellFormed, hnsk] at h2
          | arr xs => simp [skillsWellFormed, hnsk] at h2
    | null => simp [skillsWellFormed, hsk] at h1
    | bool b => simp [skillsWellFormed, hsk] at h1
    | int n => simp [skillsWellFormed, hsk] at h1
    | str s => simp [skillsWellFormed, hsk] at h1
    | arr xs => simp [skillsWellFormed, hsk] at h1

/-!
Lemmas about the attribute-changes loop and the whole diff.
-/

theorem attrChangesAux_ok_eq :
    ∀ (new_by old_by : List (Val × Record))
      (acc ac : List (Val × List (String × Val × Val))),
    (new_by.map Prod.fst).Nodup →
    (∀ k ∈ acc.map Prod.fst, k ∉ new_by.map Prod.fst) →
    attrChangesAux old_by acc new_by = Except.ok ac →
    ac = acc ++ new_by.filterMap (attrEntry old_by) := by
  intro new_by
  induction new_by with
  | nil =>
    intro old_by acc ac _ _ h
    simp only [attrChangesAux, Except.ok.injEq] at h
    simp [← h]
  | cons e rest ih =>
    intro old_by acc ac hnd hdisj h
    rw [List.map_cons, List.nodup_cons] at hnd
    cases hov : dictFind old_by e.1 with
    | none =>
      simp only [attrChangesAux, hov] at h
      have hd2 : ∀ k ∈ acc.map Prod.fst, k ∉ rest.map Prod.fst := by
        intro k hk hmem
        exact hdisj k hk (by rw [List.map_cons]; exact List.mem_cons_of_mem _ hmem)
      rw [ih old_by acc ac hnd.2 hd2 h]
      simp [List.filterMap_cons, attrEntry, hov]
    | some old_p =>
      simp only [attrChangesAux, hov] at h
      cases hrd : recordDiff old_p e.2 with
      | error er => simp [hrd] at h
      | ok dl =>
        simp only [hrd] at h
        by_cases hemp : dl.isEmpty
        · rw [if_pos hemp] at h
          have hd2 : ∀ k ∈ acc.map Prod.fst, k ∉ rest.map Prod.fst := by
            intro k hk hmem
            exact hdisj k hk (by rw [List.map_cons]; exact List.mem_cons_of_mem _ hmem)
          rw [ih old_by acc ac hnd.2 hd2 h]
          simp [List.filterMap_cons, attrEntry, hov, hrd, hemp]
        · rw [if_neg hemp] at h
          have hkey : e.1 ∉ acc.map Prod.fst := by
            intro hk
            exact hdisj e.1 hk (by rw [List.map_cons]; exact List.mem_cons_self _ _)
          rw [dictInsert_eq_append dl hkey] at h
          have hd2 : ∀ k ∈ (acc ++ [(e.1, dl)]).map Prod.fst, k ∉ rest.map Prod.fst := by
            intro k hk hmem
            rw [List.map_append] at hk
            rcases List.mem_append.mp hk with hk | hk
            · exact hdisj k hk (by rw [List.map_cons]; exact List.mem_cons_of_mem _ hmem)
            · simp at hk
              rw [hk] at hmem
              exact hnd.1 hmem
          rw [ih old_by _ ac hnd.2 hd2 h]
          rw [List.append_assoc]
          congr 1
          simp [List.filterMap_cons, attrEntry, hov, hrd, hemp]

theorem attrChangesAux_total :
    ∀ (new_by old_by : List (Val × Record))
      (acc : List (Val × List (String × Val × Val))),
    (∀ e ∈ new_by, ∀ old_p, dictFind old_by e.1 = some old_p →
      ∃ dl, recordDiff old_p e.2 = Except.ok dl) →
    ∃ ac, attrChangesAux old_by acc new_by = Except.ok ac := by
  intro new_by
  induction new_by with
  | nil => intro old_by acc _; exact ⟨acc, rfl⟩
  | cons e rest ih =>
    intro old_by acc hall
    cases hov : dictFind old_by e.1 with
    | none =>
      simp only [attrChangesAux, hov]
      exact ih old_by acc (fun e2 he2 => hall e2 (List.mem_cons_of_mem _ he2))
    | some old_p =>
      rcases hall e (List.mem_cons_self _ _) old_p hov with ⟨dl, hdl⟩
      simp only [attrChangesAux, hov, hdl]
      exact ih old_by _ (fun e2 he2 => hall e2 (List.mem_cons_of_mem _ he2))

theorem attrChangesAux_ok_recordDiff_ok :
    ∀ (new_by old_by : List (Val × Record))
      (acc ac : List (Val × List (String × Val × Val))),
    attrChangesAux old_by acc new_by = Except.ok ac →
    ∀ e ∈ new_by, ∀ old_p, dictFind old_by e.1 = some old_p →
    ∃ dl, recordDiff old_p e.2 = Except.ok dl := by
  intro new_by
  induction new_by with
  | nil => intro old_by acc ac _ e he; simp at he
  | cons e2 rest ih =>
    intro old_by acc ac h e he old_p hov
    rw [List.mem_cons] at he
    cases hov2 : dictFind old_by e2.1 with
    | none =>
      simp only [attrChangesAux, hov2] at h
      rcases he with he | he
      · rw [he] at hov; rw [hov] at hov2; simp at hov2
      · exact ih old_by acc ac h e he old_p hov
    | some old_p2 =>
      simp only [attrChangesAux, hov2] at h
      cases hrd : recordDiff old_p2 e2.2 with
      | error er => simp [hrd] at h
      | ok dl =>
        simp only [hrd] at h
        rcases he with he | he
        · rw [he] at hov
          rw [hov] at hov2
          simp only [Option.some.injEq] at hov2
          rw [he, hov2]
          exact ⟨dl, hrd⟩
        · exact ih old_by _ ac h e he old_p hov

theorem diffSnapshots_ok_parts (old new : List Record) (cs : ChangeSet)
    (h : diffSnapshots old new = Except.ok cs) :
    ∃ old_by new_by,
      playersByName old = Except.ok old_by ∧
      playersByName new = Except.ok new_by ∧
      cs.new_players = (new_by.map Prod.fst).filter (fun nm => !(dictContains old_by nm)) ∧
      cs.removed_players = (old_by.map Prod.fst).filter (fun nm => !(dictContains new_by nm)) ∧
      attrChangesAux old_by [] new_by = Except.ok cs.attribute_changes := by
  unfold diffSnapshots at h
  cases ho : playersByName old with
  | error e => simp [ho] at h
  | ok old_by =>
    simp only [ho] at h
    cases hn : playersByName new with
    | error e => simp [hn] at h
    | ok new_by =>
      simp only [hn] at h
      cases hac : attrChangesAux old_by [] new_by with
      | error e => simp [hac] at h
      | ok ac =>
        simp only [hac, Except.ok.injEq] at h
        refine ⟨old_by, new_by, rfl, rfl, ?_, ?_, ?_⟩
        · rw [← h]
        · rw [← h]
        · rw [← h]; exact hac

theorem compare_forward_ok_diff (fs : FileSystem) (team_id : Int)
    (old new : List Record) (cs : ChangeSet)
    (hload : LoadTeamSnapshot.forward fs team_id = Except.ok (some old))
    (h : CompareTeamSnapshots.forward fs team_id new = Except.ok (some cs)) :
    diffSnapshots old new = Except.ok cs := by
  unfold CompareTeamSnapshots.forward at h
  simp only [hload] at h
  cases hd : diffSnapshots old new with
  | error e => simp [hd] at h
  | ok cs2 =>
    simp only [hd, Except.ok.injEq, Option.some.injEq] at h
    rw [h]

theorem viewOf_eq (s : List Record) (v : List (Val × Record))
    (h : playersByName s = Except.ok v) : viewOf s = v := by
  simp [viewOf, h]

theorem attrEntry_eq_some_iff (old_by : List (Val × Record)) (e : Val × Record)
    (nm : Val) (dl : List (String × Val × Val)) :
    attrEntry old_by e = some (nm, dl) ↔
      e.1 = nm ∧ ∃ old_p, dictFind old_by e.1 = some old_p ∧
        recordDiff old_p e.2 = Except.ok dl ∧ dl ≠ [] := by
  cases hov : dictFind old_by e.1 with
  | none => simp [attrEntry, hov]
  | some old_p =>
    cases hrd : recordDiff old_p e.2 with
    | error er =>
      simp only [attrEntry, hov, hrd, Option.some.injEq]
      constructor
      · intro hx; simp at hx
      · rintro ⟨-, old_p2, hop2, hrd2, -⟩
        rw [← hop2] at hrd2
        rw [hrd2] at hrd
        simp at hrd
    | ok dl2 =>
      by_cases hemp : dl2.isEmpty
      · simp only [attrEntry, hov, hrd]
        rw [if_pos hemp]
        rw [List.isEmpty_iff] at hemp
        constructor
        · intro hx; simp at hx
        · rintro ⟨-, old_p2, hop2, hrd2, hnil⟩
          simp only [Option.some.injEq] at hop2
          rw [← hop2] at hrd2
          rw [hrd2] at hrd
          simp only [Except.ok.injEq] at hrd
          exact absurd (hrd.trans hemp) hnil
      · simp only [attrEntry, hov, hrd]
        rw [if_neg hemp]
        rw [List.isEmpty_iff] at hemp
        simp only [Option.some.injEq, Prod.mk.injEq]
        constructor
        · rintro ⟨h1, h2⟩
          exact ⟨h1, old_p, rfl, by rw [h2] at hrd; exact hrd, by rw [← h2]; exact hemp⟩
        · rintro ⟨h1, old_p2, hop2, hrd2, -⟩
          rw [← hop2] at hrd2
          rw [hrd2] at hrd
          simp only [Except.ok.injEq] at hrd
          exact ⟨h1, hrd.symm⟩

theorem diffSnapshots_attr_mem (old new : List Record) (cs : ChangeSet)
    (h : diffSnapshots old new = Except.ok cs) (nm : Val)
    (dl : List (String × Val × Val)) :
    (nm, dl) ∈ cs.attribute_changes ↔
      ∃ new_p old_p, dictFind (viewOf new) nm = some new_p ∧
        dictFind (viewOf old) nm = some old_p ∧
        recordDiff old_p new_p = Except.ok dl ∧ dl ≠ [] := by
  rcases diffSnapshots_ok_parts old new cs h with
    ⟨old_by, new_by, ho, hn, -, -, hac⟩
  have hnd := playersByName_keys_nodup new new_by hn
  have hacl := attrChangesAux_ok_eq new_by old_by [] cs.attribute_changes hnd
    (by simp) hac
  rw [viewOf_eq old old_by ho, viewOf_eq new new_by hn]
  rw [hacl]
  simp only [List.nil_append, List.mem_filterMap]
  constructor
  · rintro ⟨e, he, hee⟩
    rcases (attrEntry_eq_some_iff old_by e nm dl).mp hee with ⟨h1, old_p, hop, hrd, hnil⟩
    refine ⟨e.2, old_p, ?_, by rw [← h1]; exact hop, hrd, hnil⟩
    refine dictFind_eq_some_of_mem hnd ?_
    rw [← h1]
    exact he
  · rintro ⟨new_p, old_p, hnp, hop, hrd, hnil⟩
    refine ⟨(nm, new_p), dictFind_mem hnp, ?_⟩
    rw [attrEntry_eq_some_iff]
    exact ⟨rfl, old_p, hop, hrd, hnil⟩

/-!
Claim theorems.
-/

/-- C1: whenever `CompareTeamSnapshots.forward` returns a ChangeSet, its
added list is exactly the identities of the new Collection that are not
identities of the old Collection, in the order first encountered while
iterating the new Collection, and its removed list is exactly the identities
of the old Collection not in the new one, in the order first encountered
while iterating the old Collection. -/
theorem compare_added_removed_order (fs : FileSystem) (team_id : Int)
    (old new : List Record) (cs : ChangeSet)
    (hload : LoadTeamSnapshot.forward fs team_id = Except.ok (some old))
    (hfwd : CompareTeamSnapshots.forward fs team_id new = Except.ok (some cs)) :
    cs.new_players = (identityOrder new).filter (fun nm => !(hasIdentity old nm)) ∧
    cs.removed_players = (identityOrder old).filter (fun nm => !(hasIdentity new nm)) := by
  have hdiff := compare_forward_ok_diff fs team_id old new cs hload hfwd
  rcases diffSnapshots_ok_parts old new cs hdiff with
    ⟨old_by, new_by, ho, hn, hnp, hrp, -⟩
  constructor
  · rw [hnp, playersByName_keys new new_by hn]
    have hfun : (fun nm => !(dictContains old_by nm)) =
        (fun nm => !(hasIdentity old nm)) := by
      funext nm
      rw [playersByName_contains old old_by ho nm]
    rw [hfun]
  · rw [hrp, playersByName_keys old old_by ho]
    have hfun : (fun nm => !(dictContains new_by nm)) =
        (fun nm => !(hasIdentity new nm)) := by
      funext nm
      rw [playersByName_contains new new_by hn nm]
    rw [hfun]

/-- Witness for C1 on the spec's own example: old `[A:20]`,
new `[A:21, B:19]`. -/
theorem compare_added_removed_order_witness :
    ({ new_players := [Val.str "B"], removed_players := [],
       attribute_changes := [(Val.str "A", [("age", Val.int 20, Val.int 21)])] } :
        ChangeSet).new_players =
      (identityOrder [pA21, pB19]).filter (fun nm => !(hasIdentity [pA20] nm)) ∧
    ({ new_players := [Val.str "B"], removed_players := [],
       attribute_changes := [(Val.str "A", [("age", Val.int 20, Val.int 21)])] } :
        ChangeSet).removed_players =
      (identityOrder [pA20]).filter (fun nm => !(hasIdentity [pA21, pB19] nm)) :=
  compare_added_removed_order sampleStore 1 [pA20] [pA21, pB19]
    { new_players := [Val.str "B"], removed_players := [],
      attribute_changes := [(Val.str "A", [("age", Val.int 20, Val.int 21)])] }
    rfl rfl

/-- C2: when no prior snapshot exists for the team id (the load returns the
absent marker), `CompareTeamSnapshots.forward` returns the absent marker
(`None`) — never a ChangeSet and never an error. -/
theorem compare_absent_baseline (fs : FileSystem) (team_id : Int)
    (new_snapshot : List Record)
    (hload : LoadTeamSnapshot.forward fs team_id = Except.ok none) :
    CompareTeamSnapshots.forward fs team_id new_snapshot = Except.ok none := by
  unfold CompareTeamSnapshots.forward
  simp only [hload]

/-- Witness for C2: an empty store has no snapshot for team 1. -/
theorem compare_absent_baseline_witness :
    CompareTeamSnapshots.forward [] 1 [pA20] = Except.ok none :=
  compare_absent_baseline [] 1 [pA20] rfl

/-- C9: whenever `CompareTeamSnapshots.forward` returns a ChangeSet, the
identity-indexed views it compared map every identity to the record with
that identity occurring latest in iteration order (last-write-wins), for the
old and the new Collection alike. -/
theorem duplicate_identity_last_write_wins (fs : FileSystem) (team_id : Int)
    (old new : List Record) (cs : ChangeSet)
    (hload : LoadTeamSnapshot.forward fs team_id = Except.ok (some old))
    (hfwd : CompareTeamSnapshots.forward fs team_id new = Except.ok (some cs))
    (nm : Val) :
    dictFind (viewOf old) nm = lastRecordNamed old nm ∧
    dictFind (viewOf new) nm = lastRecordNamed new nm := by
  have hdiff := compare_forward_ok_diff fs team_id old new cs hload hfwd
  rcases diffSnapshots_ok_parts old new cs hdiff with
    ⟨old_by, new_by, ho, hn, -, -, -⟩
  rw [viewOf_eq old old_by ho, viewOf_eq new new_by hn]
  exact ⟨playersByName_find old old_by ho nm, playersByName_find new new_by hn nm⟩

/-- Witness for C9 on a Collection with a duplicated identity: in
`[pA20, pA21]` the view maps "A" to the later record `pA21`. -/
theorem duplicate_identity_last_write_wins_witness :
    dictFind (viewOf [pA20, pA21]) (Val.str "A") =
      lastRecordNamed [pA20, pA21] (Val.str "A") ∧
    dictFind (viewOf [pA21]) (Val.str "A") =
      lastRecordNamed [pA21] (Val.str "A") :=
  duplicate_identity_last_write_wins dupStore 2 [pA20, pA21] [pA21]
    { new_players := [], removed_players := [], attribute_changes := [] }
    rfl rfl (Val.str "A")

/-- C3: whenever `CompareTeamSnapshots.forward` returns a ChangeSet, every
entry of a per-identity diff dict is either one of the eleven fixed compared
top-level attributes or a key of the old record's skills sub-mapping (no
other top-level field is ever reported); a fixed attribute not shadowed by a
skill key appears in the dict, with its `get`-values (missing field read as
`None`, so none→value and value→none each count), exactly when those values
differ; and an identity matched in both views appears in
`attribute_changes` iff at least one compared field differed. -/
theorem compare_fixed_attribute_set (fs : FileSystem) (team_id : Int)
    (old new : List Record) (cs : ChangeSet)
    (hload : LoadTeamSnapshot.forward fs team_id = Except.ok (some old))
    (hfwd : CompareTeamSnapshots.forward fs team_id new = Except.ok (some cs))
    (nm : Val) :
    (∀ dl, (nm, dl) ∈ cs.attribute_changes →
      dl ≠ [] ∧
      ∃ old_p new_p, dictFind (viewOf old) nm = some old_p ∧
        dictFind (viewOf new) nm = some new_p ∧
        (∀ e ∈ dl, e.1 ∈ comparedAttrs ∨ e.1 ∈ skillKeys old_p) ∧
        (∀ a ∈ comparedAttrs, a ∉ skillKeys old_p →
          ((a, pyGet old_p a, pyGet new_p a) ∈ dl ↔ pyGet old_p a ≠ pyGet new_p a))) ∧
    (∀ old_p new_p, dictFind (viewOf old) nm = some old_p →
      dictFind (viewOf new) nm = some new_p →
      ((∃ dl, (nm, dl) ∈ cs.attribute_changes) ↔ someAttrDiffers old_p new_p)) := by
  have hdiff := compare_forward_ok_diff fs team_id old new cs hload hfwd
  constructor
  · intro dl hmem
    rcases (diffSnapshots_attr_mem old new cs hdiff nm dl).mp hmem with
      ⟨new_p, old_p, hnp, hop, hrd, hnil⟩
    exact ⟨hnil, old_p, new_p, hop, hnp,
      fun e he => recordDiff_ok_mem old_p new_p dl hrd e he,
      fun a ha hna => recordDiff_ok_top_mem_iff old_p new_p dl hrd a ha hna⟩
  · intro old_p new_p hop hnp
    constructor
    · rintro ⟨dl, hmem⟩
      rcases (diffSnapshots_attr_mem old new cs hdiff nm dl).mp hmem with
        ⟨new_p2, old_p2, hnp2, hop2, hrd, hnil⟩
      rw [hnp] at hnp2
      rw [hop] at hop2
      simp only [Option.some.injEq] at hnp2 hop2
      rw [← hnp2, ← hop2] at hrd
      exact (recordDiff_ok_ne_nil_iff _ _ _ hrd).mp hnil
    · intro hdiffers
      rcases diffSnapshots_ok_parts old new cs hdiff with
        ⟨old_by, new_by, ho, hn, -, -, hac⟩
      rw [viewOf_eq old old_by ho] at hop
      rw [viewOf_eq new new_by hn] at hnp
      have hmemnb : (nm, new_p) ∈ new_by := dictFind_mem hnp
      rcases attrChangesAux_ok_recordDiff_ok new_by old_by [] cs.attribute_changes
        hac (nm, new_p) hmemnb old_p hop with ⟨dl, hrd⟩
      refine ⟨dl, ?_⟩
      rw [diffSnapshots_attr_mem old new cs hdiff nm dl]
      rw [viewOf_eq old old_by ho, viewOf_eq new new_by hn]
      exact ⟨new_p, old_p, hnp, hop, hrd,
        (recordDiff_ok_ne_nil_iff _ _ _ hrd).mpr hdiffers⟩

/-- Witness for C3 on the spec's example, at identity "A". -/
theorem compare_fixed_attribute_set_witness :
    (∀ dl, ((Val.str "A"), dl) ∈
        ({ new_players := [Val.str "B"], removed_players := [],
           attribute_changes := [(Val.str "A", [("age", Val.int 20, Val.int 21)])] } :
            ChangeSet).attribute_changes →
      dl ≠ [] ∧
      ∃ old_p new_p, dictFind (viewOf [pA20]) (Val.str "A") = some old_p ∧
        dictFind (viewOf [pA21, pB19]) (Val.str "A") = some new_p ∧
        (∀ e ∈ dl, e.1 ∈ comparedAttrs ∨ e.1 ∈ skillKeys old_p) ∧
        (∀ a ∈ comparedAttrs, a ∉ skillKeys old_p →
          ((a, pyGet old_p a, pyGet new_p a) ∈ dl ↔ pyGet old_p a ≠ pyGet new_p a))) ∧
    (∀ old_p new_p, dictFind (viewOf [pA20]) (Val.str "A") = some old_p →
      dictFind (viewOf [pA21, pB19]) (Val.str "A") = some new_p →
      ((∃ dl, ((Val.str "A"), dl) ∈
          ({ new_players := [Val.str "B"], removed_players := [],
             attribute_changes := [(Val.str "A", [("age", Val.int 20, Val.int 21)])] } :
              ChangeSet).attribute_changes) ↔ someAttrDiffers old_p new_p)) :=
  compare_fixed_attribute_set sampleStore 1 [pA20] [pA21, pB19]
    { new_players := [Val.str "B"], removed_players := [],
      attribute_changes := [(Val.str "A", [("age", Val.int 20, Val.int 21)])] }
    rfl rfl (Val.str "A")

/-- C4: the skills comparison iterates only the old record's sub-mapping
keys: on any matched pair whose diff dict was computed, a key found only in
the new record's sub-mapping (and not a fixed attribute name) is never
reported, while every old sub-mapping key whose value differs in the new
sub-mapping — including when absent there, read as `None` — is reported
with its old and new values. -/
theorem skills_diff_old_keys_only (old_p new_p : Record)
    (dl : List (String × Val × Val)) (h : recordDiff old_p new_p = Except.ok dl) :
    (∀ k, k ∈ skillKeys new_p → k ∉ skillKeys old_p → k ∉ comparedAttrs →
      ∀ e ∈ dl, e.1 ≠ k) ∧
    (∀ k ∈ skillKeys old_p, skillVal old_p k ≠ skillVal new_p k →
      (k, skillVal old_p k, skillVal new_p k) ∈ dl) := by
  constructor
  · intro k _ hkold hkattr e he hek
    rcases recordDiff_ok_mem old_p new_p dl h e he with h2 | h2
    · rw [hek] at h2
      exact hkattr h2
    · rw [hek] at h2
      exact hkold h2
  · intro k hk hne
    rcases recordDiff_ok_cases old_p new_p dl h with
      ⟨hke, -⟩ | ⟨os, ns, hsk, hnsk, -, hdl⟩
    · rw [hke] at hk
      simp at hk
    · rw [skillKeys, hsk] at hk
      have hsv : skillVal old_p k = pyGet os k := by rw [skillVal, hsk]
      have hsv2 : skillVal new_p k = pyGet ns k := by rw [skillVal, hnsk]
      rw [hsv, hsv2] at hne ⊢
      rw [hdl]
      exact mem_diffLoop_of_differs _ _ _ _ k hk hne

/-- Witness for C4: old skills `{tackle: 1, kick: 2}` against new skills
`{tackle: 3, speed: 9}` — `speed` is never reported, `tackle` and the
now-absent `kick` are. -/
theorem skills_diff_old_keys_only_witness :
    (∀ k, k ∈ skillKeys [("name", Val.str "A"),
        ("skills", Val.obj [("tackle", Val.int 3), ("speed", Val.int 9)])] →
      k ∉ skillKeys [("name", Val.str "A"),
        ("skills", Val.obj [("tackle", Val.int 1), ("kick", Val.int 2)])] →
      k ∉ comparedAttrs →
      ∀ e ∈ [("tackle", Val.int 1, Val.int 3), ("kick", Val.int 2, Val.null)],
        e.1 ≠ k) ∧
    (∀ k ∈ skillKeys [("name", Val.str "A"),
        ("skills", Val.obj [("tackle", Val.int 1), ("kick", Val.int 2)])],
      skillVal [("name", Val.str "A"),
        ("skills", Val.obj [("tackle", Val.int 1), ("kick", Val.int 2)])] k ≠
      skillVal [("name", Val.str "A"),
        ("skills", Val.obj [("tackle", Val.int 3), ("speed", Val.int 9)])] k →
      (k, skillVal [("name", Val.str "A"),
          ("skills", Val.obj [("tackle", Val.int 1), ("kick", Val.int 2)])] k,
        skillVal [("name", Val.str "A"),
          ("skills", Val.obj [("tackle", Val.int 3), ("speed", Val.int 9)])] k) ∈
        [("tackle", Val.int 1, Val.int 3), ("kick", Val.int 2, Val.null)]) :=
  skills_diff_old_keys_only
    [("name", Val.str "A"), ("skills", Val.obj [("tackle", Val.int 1), ("kick", Val.int 2)])]
    [("name", Val.str "A"), ("skills", Val.obj [("tackle", Val.int 3), ("speed", Val.int 9)])]
    [("tackle", Val.int 1, Val.int 3), ("kick", Val.int 2, Val.null)]
    rfl

theorem playersByNameAux_error_shape :
    ∀ (s : List Record) (d : List (Val × Record)) (e : PyErr),
    playersByNameAux d s = Except.error e → e = PyErr.keyError "name" := by
  intro s
  induction s with
  | nil => intro d e h; simp [playersByNameAux] at h
  | cons p rest ih =>
    intro d e h
    cases hn : dictFind p "name" with
    | none =>
      simp only [playersByNameAux, hn, Except.error.injEq] at h
      exact h.symm
    | some nm =>
      simp only [playersByNameAux, hn] at h
      exact ih _ e h

/-- C5 counterexample (claim refuted): both collections are well-formed —
every record has the identity field and every present `skills` value is a
mapping — yet the diff raises `KeyError("skills")`, because the old record
has a non-empty skills sub-mapping while the matched new record has no
`skills` key at all. -/
theorem diff_totality_counterexample :
    ([pASkills].all (fun p => (dictFind p "name").isSome) &&
     [pASkills].all skillsWellFormed &&
     [pAOnly].all (fun p => (dictFind p "name").isSome) &&
     [pAOnly].all skillsWellFormed) = true ∧
    diffSnapshots [pASkills] [pAOnly] = Except.error (PyErr.keyError "skills") :=
  ⟨rfl, rfl⟩

/-- C5 amended: the diff raises no error on well-formed collections provided
additionally that whenever an old record with some identity has a non-empty
skills sub-mapping, every new record with the same identity carries a
`skills` key. -/
theorem diff_totality_amended (old new : List Record)
    (h1 : ∀ p ∈ old, (dictFind p "name").isSome ∧ skillsWellFormed p = true)
    (h2 : ∀ p ∈ new, (dictFind p "name").isSome ∧ skillsWellFormed p = true)
    (h3 : ∀ old_p ∈ old, ∀ new_p ∈ new,
      dictFind old_p "name" = dictFind new_p "name" →
      skillKeys old_p ≠ [] → (dictFind new_p "skills").isSome) :
    ∃ cs, diffSnapshots old new = Except.ok cs := by
  rcases playersByNameAux_total old [] (fun p hp => (h1 p hp).1) with ⟨old_by, ho⟩
  rcases playersByNameAux_total new [] (fun p hp => (h2 p hp).1) with ⟨new_by, hn⟩
  have ho2 : playersByName old = Except.ok old_by := ho
  have hn2 : playersByName new = Except.ok new_by := hn
  have hall : ∀ e ∈ new_by, ∀ old_p, dictFind old_by e.1 = some old_p →
      ∃ dl, recordDiff old_p e.2 = Except.ok dl := by
    intro e he old_p hop
    have hmem2 : (e.1, e.2) ∈ new_by := he
    have hnew := playersByName_entry_named new new_by hn2 hmem2
    have hold := playersByName_entry_named old old_by ho2 (dictFind_mem hop)
    refine recordDiff_total old_p e.2 ((h1 old_p hold.1).2) ((h2 e.2 hnew.1).2) ?_
    intro hkeys
    refine h3 old_p hold.1 e.2 hnew.1 ?_ hkeys
    rw [hold.2, hnew.2]
  rcases attrChangesAux_total new_by old_by [] hall with ⟨ac, hac⟩
  refine ⟨ChangeSet.mk
    ((new_by.map Prod.fst).filter (fun nm => !(dictContains old_by nm)))
    ((old_by.map Prod.fst).filter (fun nm => !(dictContains new_by nm))) ac, ?_⟩
  unfold diffSnapshots
  simp only [ho2, hn2, hac]

/-- Witness for the amended C5: skills present on both sides. -/
theorem diff_totality_amended_witness :
    ∃ cs, diffSnapshots [pASkills]
      [[("name", Val.str "A"), ("skills", Val.obj [("tackle", Val.int 2)])]] =
        Except.ok cs :=
  diff_totality_amended [pASkills]
    [[("name", Val.str "A"), ("skills", Val.obj [("tackle", Val.int 2)])]]
    (by decide) (by decide) (by decide)

/-- C6 counterexample (claim refuted): a record lacking the identity field is
not skipped — the whole diff fails with `KeyError("name")` (raised by the
dict comprehension `{p["name"]: p for p in old_snapshot}`). -/
theorem malformed_record_counterexample :
    diffSnapshots [[("age", Val.int 5)]] [] =
      Except.error (PyErr.keyError "name") := rfl

/-- C6 amended: a record lacking the identity field in either input
Collection makes the whole diff operation raise `KeyError("name")`;
malformed records are never skipped. -/
theorem malformed_record_amended (old new : List Record)
    (h : (∃ p ∈ old, dictFind p "name" = none) ∨
         (∃ p ∈ new, dictFind p "name" = none)) :
    diffSnapshots old new = Except.error (PyErr.keyError "name") := by
  rcases h with h | h
  · have herr := playersByNameAux_error_of_nameless old [] h
    unfold diffSnapshots
    have herr2 : playersByName old = Except.error (PyErr.keyError "name") := herr
    simp only [herr2]
  · cases ho : playersByName old with
    | error e =>
      have he := playersByNameAux_error_shape old [] e ho
      unfold diffSnapshots
      simp only [ho, he]
    | ok old_by =>
      have herr := playersByNameAux_error_of_nameless new [] h
      have herr2 : playersByName new = Except.error (PyErr.keyError "name") := herr
      unfold diffSnapshots
      simp only [ho, herr2]

/-- Witness for the amended C6. -/
theorem malformed_record_amended_witness :
    diffSnapshots [pA20] [[("age", Val.int 5)]] =
      Except.error (PyErr.keyError "name") :=
  malformed_record_amended [pA20] [[("age", Val.int 5)]]
    (Or.inr ⟨[("age", Val.int 5)], by decide⟩)

/-- C7: when a save reports success, loading the same team id returns
exactly the saved Collection, nested sub-mappings included (round-trip
fidelity; `json.dump`/`json.load` are exact inverses on these
JSON-representable values, see `FileData`). -/
theorem save_load_round_trip (fs : FileSystem) (team_id : Int)
    (players_data : List Record) (fs2 : FileSystem) (ev : WriteOutcome)
    (h : SaveTeamSnapshot.forward fs team_id players_data ev = (fs2, true)) :
    LoadTeamSnapshot.forward fs2 team_id = Except.ok (some players_data) := by
  cases ev with
  | completed =>
    simp only [SaveTeamSnapshot.forward, Prod.mk.injEq] at h
    unfold LoadTeamSnapshot.forward
    rw [← h.1, dictFind_dictInsert]
    simp
  | failOnOpen => simp [SaveTeamSnapshot.forward] at h
  | failDuringWrite w => simp [SaveTeamSnapshot.forward] at h

/-- Witness for C7 with a nested skills sub-mapping. -/
theorem save_load_round_trip_witness :
    LoadTeamSnapshot.forward
      (SaveTeamSnapshot.forward [] 3 [pASkills] WriteOutcome.completed).1 3 =
      Except.ok (some [pASkills]) :=
  save_load_round_trip [] 3 [pASkills]
    (SaveTeamSnapshot.forward [] 3 [pASkills] WriteOutcome.completed).1
    WriteOutcome.completed rfl

/-- C8 counterexample (claim refuted): a failure during `json.dump` returns
`False` as claimed, but the prior snapshot content is NOT left untouched —
`open(filename, "w")` truncates the file before serialization, so the file
now holds the interrupted write instead of the prior snapshot. -/
theorem save_failure_untouched_counterexample :
    (SaveTeamSnapshot.forward [(snapshotFilename 1, FileData.jsonFile [pA20])] 1
      [pB19] (WriteOutcome.failDuringWrite "")).2 = false ∧
    dictFind (SaveTeamSnapshot.forward
        [(snapshotFilename 1, FileData.jsonFile [pA20])] 1
        [pB19] (WriteOutcome.failDuringWrite "")).1 (snapshotFilename 1) ≠
      dictFind [(snapshotFilename 1, FileData.jsonFile [pA20])]
        (snapshotFilename 1) := by
  refine ⟨rfl, ?_⟩
  intro h
  simp [SaveTeamSnapshot.forward, dictInsert, dictFind] at h

/-- C8 amended: on any I/O failure the save returns `False` and, because the
whole body sits in `try`/`except`, never propagates an exception past the
Store boundary (the embedded result is a total pair); the prior content is
guaranteed untouched only when `open` itself fails — a failure during
serialization leaves a truncated or partially written file, since the file
was already opened in truncating write mode. -/
theorem save_failure_amended (fs : FileSystem) (team_id : Int)
    (players_data : List Record) (ev : WriteOutcome)
    (h : ev ≠ WriteOutcome.completed) :
    (SaveTeamSnapshot.forward fs team_id players_data ev).2 = false ∧
    (ev = WriteOutcome.failOnOpen →
      (SaveTeamSnapshot.forward fs team_id players_data ev).1 = fs) := by
  cases ev with
  | completed => exact absurd rfl h
  | failOnOpen => exact ⟨rfl, fun _ => rfl⟩
  | failDuringWrite w => exact ⟨rfl, nofun⟩

/-- Witness for the amended C8: a failure on `open` leaves the store as it
was and reports `False`. -/
theorem save_failure_amended_witness :
    (SaveTeamSnapshot.forward sampleStore 1 [pB19] WriteOutcome.failOnOpen).2 =
      false ∧
    (WriteOutcome.failOnOpen = WriteOutcome.failOnOpen →
      (SaveTeamSnapshot.forward sampleStore 1 [pB19] WriteOutcome.failOnOpen).1 =
        sampleStore) :=
  save_failure_amended sampleStore 1 [pB19] WriteOutcome.failOnOpen (by decide)

/-- C10: the report of the absent marker is the single fixed no-baseline
sentence, and the report of any ChangeSet is exactly the added section (an
explicit "none added" sentence when empty), then the removed section, then
one block per identity in `attribute_changes` listing each changed field
with its old and new values (or the explicit "no attribute changes"
sentence), joined by newlines — see `reportSpec`, `addedSection`,
`removedSection` and `attrSection` for the spec-side layout. -/
theorem report_layout (changes : Option ChangeSet) :
    ReportTeamChanges.forward changes = reportSpec changes := by
  cases changes with
  | none => rfl
  | some c =>
    unfold ReportTeamChanges.forward reportSpec addedSection removedSection attrSection
    cases hnp : c.new_players <;> cases hrp : c.removed_players <;>
      cases hat : c.attribute_changes <;> simp [hnp, hrp, hat]
